import Mathlib

/-!
Verification of the llm-sdk streaming core (ojbkgo/llm-sdk).

The development shallowly embeds the streaming layer of the Go SDK:

* the shared data model of `pkg/api/types.go` / `pkg/api/errors.go`
  (`ResponseChunk`, `ChunkChoice`, `Message`, `Error`, `NewError`);
* the four backend stream interpreters
  (`openaiResponseStream.Recv`, `deepseekResponseStream.Recv`,
  `anthropicResponseStream.Recv`, `geminiResponseStream.Recv`);
* the stream processor `DefaultStreamProcessor.Process` of
  `pkg/api/streaming.go`;
* the byte-level SSE reader `SSEReader.ReadEvent` / `processBuffer`
  of `pkg/utils/http.go`.

Modelling conventions.  Go strings are Lean `String`s; Go `int`/`int64`
are Lean `Int`.  The interpreters consult the SSE reader only through
`event.Data`, so a backend stream carries the list of `data` values the
reader will yield (`pending`), followed by the reader's final answer
(`SSEEnd`: either `io.EOF` or an I/O read failure).  `json.Unmarshal`
into a backend-specific struct is modelled as an explicit parameter
`parse : String → Option R` (`none` = unmarshal error): theorems
quantify over every such parse oracle, so nothing is assumed about the
JSON library beyond its Go signature.  `time.Now().Unix()` is an
explicit `now : Int` argument.  The `RawError` field of `api.Error`
(the wrapped Go error) is not modelled; no claim consults it.
-/

/-- `api.ErrorType` (pkg/api, errors): the SDK error kinds. -/
inductive ErrorType where
  | authentication
  | invalidRequest
  | rateLimit
  | server
  | timeout
  | connection
  | unknown
deriving DecidableEq, Repr

/-- The Go string value of each `api.ErrorType` constant. -/
def ErrorType.goString : ErrorType → String
  | .authentication => "authentication_error"
  | .invalidRequest => "invalid_request_error"
  | .rateLimit => "rate_limit_error"
  | .server => "server_error"
  | .timeout => "timeout_error"
  | .connection => "connection_error"
  | .unknown => "unknown_error"

/-- `api.Error` (pkg/api, errors).  The wrapped `RawError` is not
modelled (no claim consults it). -/
structure ApiError where
  type : ErrorType
  message : String
  statusCode : Int
  param : String
  code : String
deriving DecidableEq, Repr

/-- `api.NewError` (pkg/api, errors): builds an `Error` with empty
`Param`/`Code`. -/
def newError (errType : ErrorType) (message : String) (statusCode : Int) :
    ApiError :=
  { type := errType, message := message, statusCode := statusCode,
    param := "", code := "" }

/-- `api.Message` (pkg/api/types.go).  `Role` is a Go string type; we
keep it as a string. -/
structure Message where
  role : String
  content : String
deriving DecidableEq, Repr

/-- `api.ChunkChoice` (pkg/api/types.go). -/
structure ChunkChoice where
  index : Int
  delta : Message
  finishReason : String
deriving DecidableEq, Repr

/-- `api.ResponseChunk` (pkg/api/types.go). -/
structure ResponseChunk where
  id : String
  object : String
  created : Int
  model : String
  choices : List ChunkChoice
deriving DecidableEq, Repr

/-- A Go `error` value as observed from the streaming layer: either an
`*api.Error` or an arbitrary error produced by a consumer callback. -/
inductive GoError where
  | api (e : ApiError)
  | user (msg : String)
deriving DecidableEq, Repr

/-- The outcome of one `Recv() (*api.ResponseChunk, error)` call:
a chunk with nil error, the `io.EOF` completion sentinel, or an
`*api.Error`. -/
inductive RecvResult where
  | chunk (c : ResponseChunk)
  | eofSignal
  | fail (e : ApiError)
deriving DecidableEq, Repr

/-- What `SSEReader.ReadEvent` reports once the pending events are
exhausted: `io.EOF`, or a non-EOF I/O error from the transport. -/
inductive SSEEnd where
  | eofEnd
  | ioErr
deriving DecidableEq, Repr

/-- Modelled from net/http: a `Response.Body` is a closer guarded by a
`closed` flag — the first `Close` may report a transport error, every
later `Close` returns nil immediately.  The repository's stream `Close`
methods only delegate to this closer. -/
structure HTTPBody where
  closed : Bool
  firstCloseErr : Option GoError
deriving DecidableEq, Repr

/-- `Close` of an HTTP response body (see `HTTPBody`). -/
def HTTPBody.close (b : HTTPBody) : Option GoError × HTTPBody :=
  if b.closed then (none, b)
  else (b.firstCloseErr, { b with closed := true })

/-- `utils.ParseSSEData` (pkg/utils/http.go): strip one leading
`"data: "` prefix if present.  `strings.HasPrefix`/`strings.TrimPrefix`
on the 6-character ASCII prefix `"data: "` are modelled
character-wise. -/
def parseSSEData (data : String) : String :=
  if data.toList.take 6 = "data: ".toList then String.mk (data.toList.drop 6)
  else data

/-! ## OpenAI stream interpreter (pkg/providers/openai/client.go) -/

/-- The `delta` object of `OpenAIStreamResponse.Choices`. -/
structure OpenAIDelta where
  content : String
  role : String
deriving DecidableEq, Repr

/-- One element of `OpenAIStreamResponse.Choices`. -/
structure OpenAIStreamChoice where
  index : Int
  delta : OpenAIDelta
  finishReason : String
deriving DecidableEq, Repr

/-- `OpenAIStreamResponse` (pkg/providers/openai/client.go). -/
structure OpenAIStreamResponse where
  id : String
  object : String
  created : Int
  model : String
  choices : List OpenAIStreamChoice
deriving DecidableEq, Repr

/-- State of an `openaiResponseStream`: the `data` values of the events
its SSE reader will still yield, the reader's final answer, and the
HTTP response body behind `rawReader`. -/
structure OpenAIStream where
  pending : List String
  endk : SSEEnd
  body : HTTPBody
deriving DecidableEq, Repr

/-- The chunk built by `openaiResponseStream.Recv` from a parsed
`OpenAIStreamResponse`. -/
def openaiAdaptChunk (r : OpenAIStreamResponse) : ResponseChunk :=
  { id := r.id, object := r.object, created := r.created, model := r.model,
    choices := r.choices.map fun choice =>
      { index := choice.index,
        delta := { role := choice.delta.role, content := choice.delta.content },
        finishReason := choice.finishReason } }

/-- `openaiResponseStream.Recv` (pkg/providers/openai/client.go):
read the next SSE event; empty data recurses, `"[DONE]"` returns
`io.EOF`, otherwise the data is unmarshalled (`parse` after
`utils.ParseSSEData`) and adapted into a `ResponseChunk`; an unmarshal
failure is a Server-kind error. -/
def openaiRecvAux (parse : String → Option OpenAIStreamResponse)
    (k : SSEEnd) (b : HTTPBody) : List String → RecvResult × OpenAIStream
  | [] =>
    match k with
    | .eofEnd => (.eofSignal, ⟨[], k, b⟩)
    | .ioErr => (.fail (newError .server "读取SSE事件失败" 0), ⟨[], k, b⟩)
  | d :: rest =>
    if d = "" || d = "[DONE]" then
      if d = "[DONE]" then (.eofSignal, ⟨rest, k, b⟩)
      else openaiRecvAux parse k b rest
    else
      match parse (parseSSEData d) with
      | none => (.fail (newError .server "解析流式响应失败" 0), ⟨rest, k, b⟩)
      | some r => (.chunk (openaiAdaptChunk r), ⟨rest, k, b⟩)

/-- `openaiResponseStream.Recv` on the stream state (see
`openaiRecvAux`; the reader's end behaviour and the body never change
while skipping events, so the recursion is over `pending` alone). -/
def openaiRecv (parse : String → Option OpenAIStreamResponse)
    (s : OpenAIStream) : RecvResult × OpenAIStream :=
  openaiRecvAux parse s.endk s.body s.pending

/-- `openaiResponseStream.Close`: delegates to the raw body. -/
def openaiClose (s : OpenAIStream) : Option GoError × OpenAIStream :=
  let (e, b) := s.body.close
  (e, { s with body := b })

example : openaiRecv (fun _ => none) ⟨["[DONE]"], .eofEnd, ⟨false, none⟩⟩ =
    (.eofSignal, ⟨[], .eofEnd, ⟨false, none⟩⟩) := by decide

/-! ## DeepSeek stream interpreter (src/unnamed deepseek client)

`deepseekResponseStream.Recv` is textually the same algorithm as the
OpenAI one, over its own `DeepSeekStreamResponse` struct; both are
modelled separately, mirroring the source. -/

/-- The `delta` object of `DeepSeekStreamResponse.Choices`. -/
structure DeepSeekDelta where
  content : String
  role : String
deriving DecidableEq, Repr

/-- One element of `DeepSeekStreamResponse.Choices`. -/
structure DeepSeekStreamChoice where
  index : Int
  delta : DeepSeekDelta
  finishReason : String
deriving DecidableEq, Repr

/-- `DeepSeekStreamResponse` (deepseek client). -/
structure DeepSeekStreamResponse where
  id : String
  object : String
  created : Int
  model : String
  choices : List DeepSeekStreamChoice
deriving DecidableEq, Repr

/-- State of a `deepseekResponseStream` (see `OpenAIStream`). -/
structure DeepSeekStream where
  pending : List String
  endk : SSEEnd
  body : HTTPBody
deriving DecidableEq, Repr

/-- The chunk built by `deepseekResponseStream.Recv` from a parsed
`DeepSeekStreamResponse`. -/
def deepseekAdaptChunk (r : DeepSeekStreamResponse) : ResponseChunk :=
  { id := r.id, object := r.object, created := r.created, model := r.model,
    choices := r.choices.map fun choice =>
      { index := choice.index,
        delta := { role := choice.delta.role, content := choice.delta.content },
        finishReason := choice.finishReason } }

/-- `deepseekResponseStream.Recv` (deepseek client), recursion over the
pending data values: empty data recurses, `"[DONE]"` returns `io.EOF`,
otherwise unmarshal and adapt; unmarshal failure is a Server error. -/
def deepseekRecvAux (parse : String → Option DeepSeekStreamResponse)
    (k : SSEEnd) (b : HTTPBody) : List String → RecvResult × DeepSeekStream
  | [] =>
    match k with
    | .eofEnd => (.eofSignal, ⟨[], k, b⟩)
    | .ioErr => (.fail (newError .server "读取SSE事件失败" 0), ⟨[], k, b⟩)
  | d :: rest =>
    if d = "" || d = "[DONE]" then
      if d = "[DONE]" then (.eofSignal, ⟨rest, k, b⟩)
      else deepseekRecvAux parse k b rest
    else
      match parse (parseSSEData d) with
      | none => (.fail (newError .server "解析流式响应失败" 0), ⟨rest, k, b⟩)
      | some r => (.chunk (deepseekAdaptChunk r), ⟨rest, k, b⟩)

/-- `deepseekResponseStream.Recv` on the stream state. -/
def deepseekRecv (parse : String → Option DeepSeekStreamResponse)
    (s : DeepSeekStream) : RecvResult × DeepSeekStream :=
  deepseekRecvAux parse s.endk s.body s.pending

/-- `deepseekResponseStream.Close`: delegates to the raw body. -/
def deepseekClose (s : DeepSeekStream) : Option GoError × DeepSeekStream :=
  let (e, b) := s.body.close
  (e, { s with body := b })

/-! ## Anthropic stream interpreter (src/unnamed anthropic client) -/

/-- `AnthropicContentBlock` (anthropic client). -/
structure AnthropicContentBlock where
  type : String
  text : String
deriving DecidableEq, Repr

/-- `AnthropicContentDelta` (anthropic client). -/
structure AnthropicContentDelta where
  type : String
  text : String
deriving DecidableEq, Repr

/-- `AnthropicStreamMessage` (anthropic client).  The `Usage` struct is
not consulted by the stream interpreter and is omitted. -/
structure AnthropicStreamMessage where
  id : String
  type : String
  role : String
  content : List AnthropicContentBlock
  model : String
  stopReason : String
  stopSequence : String
deriving DecidableEq, Repr

/-- The Go zero value of `AnthropicStreamMessage` (what
`json.Unmarshal` leaves when the `message` field is absent). -/
def anthropicZeroMessage : AnthropicStreamMessage :=
  { id := "", type := "", role := "", content := [], model := "",
    stopReason := "", stopSequence := "" }

/-- `AnthropicStreamResponse` (anthropic client).  `Message` is a value
field (zero struct when absent); `ContentBlock` and `Delta` are
pointers (`none` when absent). -/
structure AnthropicStreamResponse where
  type : String
  message : AnthropicStreamMessage
  contentBlock : Option AnthropicContentBlock
  delta : Option AnthropicContentDelta
  index : Int
deriving DecidableEq, Repr

/-- State of an `anthropicResponseStream` (see `OpenAIStream`). -/
structure AnthropicStream where
  pending : List String
  endk : SSEEnd
  body : HTTPBody
deriving DecidableEq, Repr

/-- `anthropicResponseStream.Recv` (anthropic client), recursion over
the pending data values.  `now` is the value of `time.Now().Unix()`
when a chunk is built.  Event dispatch on the parsed `type`:
`message_stop` completes; a `content_block_delta` whose delta is a
`"text"` delta yields one assistant chunk at the event's index (the
other cases recurse); `content_block_start` and `message_start`
recurse; `message_delta` completes exactly when `Message.StopReason` is
non-empty; unrecognized types recurse. -/
def anthropicRecvAux (parse : String → Option AnthropicStreamResponse)
    (now : Int) (k : SSEEnd) (b : HTTPBody) :
    List String → RecvResult × AnthropicStream
  | [] =>
    match k with
    | .eofEnd => (.eofSignal, ⟨[], k, b⟩)
    | .ioErr => (.fail (newError .server "读取SSE事件失败" 0), ⟨[], k, b⟩)
  | d :: rest =>
    if d = "" then
      anthropicRecvAux parse now k b rest
    else
      match parse (parseSSEData d) with
      | none => (.fail (newError .server "解析流式响应失败" 0), ⟨rest, k, b⟩)
      | some r =>
        if r.type = "message_stop" then
          (.eofSignal, ⟨rest, k, b⟩)
        else if r.type = "content_block_delta" then
          match r.delta with
          | none => anthropicRecvAux parse now k b rest
          | some dl =>
            if dl.type ≠ "text" then
              anthropicRecvAux parse now k b rest
            else
              (.chunk
                { id := "", object := "chat.completion.chunk",
                  created := now, model := "",
                  choices := [{ index := r.index,
                                delta := { role := "assistant",
                                           content := dl.text },
                                finishReason := "" }] },
               ⟨rest, k, b⟩)
        else if r.type = "content_block_start" then
          -- both the non-text and the text cases skip to the next event
          anthropicRecvAux parse now k b rest
        else if r.type = "message_start" then
          anthropicRecvAux parse now k b rest
        else if r.type = "message_delta" then
          if r.message.stopReason ≠ "" then (.eofSignal, ⟨rest, k, b⟩)
          else anthropicRecvAux parse now k b rest
        else
          anthropicRecvAux parse now k b rest

/-- `anthropicResponseStream.Recv` on the stream state. -/
def anthropicRecv (parse : String → Option AnthropicStreamResponse)
    (now : Int) (s : AnthropicStream) : RecvResult × AnthropicStream :=
  anthropicRecvAux parse now s.endk s.body s.pending

/-- `anthropicResponseStream.Close`: delegates to the raw body. -/
def anthropicClose (s : AnthropicStream) : Option GoError × AnthropicStream :=
  let (e, b) := s.body.close
  (e, { s with body := b })

/-! ## Gemini stream interpreter (pkg/providers/gemini/client.go) -/

/-- One element of a Gemini candidate's `content.parts`. -/
structure GeminiPart where
  text : String
deriving DecidableEq, Repr

/-- The `content` object of a Gemini candidate. -/
structure GeminiContent where
  parts : List GeminiPart
  role : String
deriving DecidableEq, Repr

/-- One element of `GeminiStreamResponse.Candidates` (the
`safetyRatings` field is not consulted by the interpreter). -/
structure GeminiCandidate where
  content : GeminiContent
  finishReason : String
  index : Int
deriving DecidableEq, Repr

/-- `GeminiStreamResponse` (pkg/providers/gemini/client.go); the
`usageMetadata` field is not consulted by the stream interpreter. -/
structure GeminiStreamResponse where
  candidates : List GeminiCandidate
deriving DecidableEq, Repr

/-- State of a `geminiResponseStream`: pending data values, reader end
behaviour, raw body, plus the stream's `model` string and the running
`chunkID` counter. -/
structure GeminiStream where
  pending : List String
  endk : SSEEnd
  body : HTTPBody
  model : String
  chunkID : Int
deriving DecidableEq, Repr

/-- The `content += part.Text` accumulation over a candidate's parts. -/
def geminiPartsText (parts : List GeminiPart) : String :=
  parts.foldl (fun content part => content ++ part.text) ""

/-- The choice-building loop of `geminiResponseStream.Recv`: a
candidate with a non-empty `finishReason` contributes an empty-content
assistant choice carrying that reason; otherwise the concatenated parts
text is contributed when non-empty, and nothing at all when empty. -/
def geminiBuildChoices : List GeminiCandidate → List ChunkChoice
  | [] => []
  | candidate :: more =>
    (if candidate.finishReason ≠ "" then
      [{ index := candidate.index,
         delta := { role := "assistant", content := "" },
         finishReason := candidate.finishReason }]
     else
       let content := geminiPartsText candidate.content.parts
       if content ≠ "" then
         [{ index := candidate.index,
            delta := { role := "assistant", content := content },
            finishReason := "" }]
       else []) ++ geminiBuildChoices more

/-- `geminiResponseStream.Recv` (pkg/providers/gemini/client.go),
recursion over the pending data values with the `chunkID` counter
threaded through.  Empty data recurses; unmarshal failure is a Server
error; an empty `candidates` array recurses; candidates are folded into
choices (`geminiBuildChoices`) and an event yielding zero choices
recurses; otherwise `chunkID` is incremented and one chunk
`chunk-<id>` is returned. -/
def geminiRecvAux (parse : String → Option GeminiStreamResponse)
    (now : Int) (k : SSEEnd) (b : HTTPBody) (model : String) :
    Int → List String → RecvResult × GeminiStream
  | cid, [] =>
    match k with
    | .eofEnd => (.eofSignal, ⟨[], k, b, model, cid⟩)
    | .ioErr =>
      (.fail (newError .server "读取SSE事件失败" 0), ⟨[], k, b, model, cid⟩)
  | cid, d :: rest =>
    if d = "" then
      geminiRecvAux parse now k b model cid rest
    else
      match parse (parseSSEData d) with
      | none =>
        (.fail (newError .server "解析流式响应失败" 0), ⟨rest, k, b, model, cid⟩)
      | some r =>
        if r.candidates.length = 0 then
          geminiRecvAux parse now k b model cid rest
        else
          let choices := geminiBuildChoices r.candidates
          if choices.length = 0 then
            geminiRecvAux parse now k b model cid rest
          else
            (.chunk
              { id := "chunk-" ++ toString (cid + 1),
                object := "chat.completion.chunk", created := now,
                model := model, choices := choices },
             ⟨rest, k, b, model, cid + 1⟩)

/-- `geminiResponseStream.Recv` on the stream state. -/
def geminiRecv (parse : String → Option GeminiStreamResponse)
    (now : Int) (s : GeminiStream) : RecvResult × GeminiStream :=
  geminiRecvAux parse now s.endk s.body s.model s.chunkID s.pending

/-- `geminiResponseStream.Close`: delegates to the raw body. -/
def geminiClose (s : GeminiStream) : Option GoError × GeminiStream :=
  let (e, b) := s.body.close
  (e, { s with body := b })

/-! ## The unified response stream (`api.ResponseStream`)

`DefaultStreamProcessor.Process` sees a stream only through the
interface `Recv() (*ResponseChunk, error)` / `Close() error`
(pkg/api/client.go); `AnyStream` packages the four concrete backend
streams behind that interface. -/

/-- One of the four concrete `api.ResponseStream` implementations,
together with its parse oracle (and clock where `Recv` reads it). -/
inductive AnyStream where
  | oai (parse : String → Option OpenAIStreamResponse) (s : OpenAIStream)
  | dsk (parse : String → Option DeepSeekStreamResponse) (s : DeepSeekStream)
  | anth (parse : String → Option AnthropicStreamResponse) (now : Int)
      (s : AnthropicStream)
  | gem (parse : String → Option GeminiStreamResponse) (now : Int)
      (s : GeminiStream)

/-- Interface dispatch of `Recv`. -/
def AnyStream.recv : AnyStream → RecvResult × AnyStream
  | .oai p s => let (r, s') := openaiRecv p s; (r, .oai p s')
  | .dsk p s => let (r, s') := deepseekRecv p s; (r, .dsk p s')
  | .anth p now s => let (r, s') := anthropicRecv p now s; (r, .anth p now s')
  | .gem p now s => let (r, s') := geminiRecv p now s; (r, .gem p now s')

/-- Interface dispatch of `Close`. -/
def AnyStream.closeStream : AnyStream → Option GoError × AnyStream
  | .oai p s => let (e, s') := openaiClose s; (e, .oai p s')
  | .dsk p s => let (e, s') := deepseekClose s; (e, .dsk p s')
  | .anth p now s => let (e, s') := anthropicClose s; (e, .anth p now s')
  | .gem p now s => let (e, s') := geminiClose s; (e, .gem p now s')

/-- Number of SSE events the stream's reader has not yet yielded. -/
def AnyStream.pendingCount : AnyStream → Nat
  | .oai _ s => s.pending.length
  | .dsk _ s => s.pending.length
  | .anth _ _ s => s.pending.length
  | .gem _ _ s => s.pending.length

lemma openaiRecvAux_chunk_lt (p : String → Option OpenAIStreamResponse)
    (k : SSEEnd) (b : HTTPBody) :
    ∀ (l : List String) (c : ResponseChunk) (s' : OpenAIStream),
      openaiRecvAux p k b l = (.chunk c, s') →
      s'.pending.length < l.length := by
  intro l
  induction l with
  | nil =>
    intro c s' h
    cases k <;> simp [openaiRecvAux] at h
  | cons d rest ih =>
    intro c s' h
    rw [openaiRecvAux] at h
    split at h
    · split at h
      · simp at h
      · exact Nat.lt_trans (ih c s' h) (Nat.lt_succ_self _)
    · split at h
      · simp at h
      · simp only [Prod.mk.injEq, RecvResult.chunk.injEq] at h
        rw [← h.2]
        exact Nat.lt_succ_self _

lemma deepseekRecvAux_chunk_lt (p : String → Option DeepSeekStreamResponse)
    (k : SSEEnd) (b : HTTPBody) :
    ∀ (l : List String) (c : ResponseChunk) (s' : DeepSeekStream),
      deepseekRecvAux p k b l = (.chunk c, s') →
      s'.pending.length < l.length := by
  intro l
  induction l with
  | nil =>
    intro c s' h
    cases k <;> simp [deepseekRecvAux] at h
  | cons d rest ih =>
    intro c s' h
    rw [deepseekRecvAux] at h
    split at h
    · split at h
      · simp at h
      · exact Nat.lt_trans (ih c s' h) (Nat.lt_succ_self _)
    · split at h
      · simp at h
      · simp only [Prod.mk.injEq, RecvResult.chunk.injEq] at h
        rw [← h.2]
        exact Nat.lt_succ_self _

lemma anthropicRecvAux_chunk_lt (p : String → Option AnthropicStreamResponse)
    (now : Int) (k : SSEEnd) (b : HTTPBody) :
    ∀ (l : List String) (c : ResponseChunk) (s' : AnthropicStream),
      anthropicRecvAux p now k b l = (.chunk c, s') →
      s'.pending.length < l.length := by
  intro l
  induction l with
  | nil =>
    intro c s' h
    cases k <;> simp [anthropicRecvAux] at h
  | cons d rest ih =>
    intro c s' h
    rw [anthropicRecvAux] at h
    have step : ∀ (s' : AnthropicStream), s' = (⟨rest, k, b⟩ : AnthropicStream) →
        s'.pending.length < (d :: rest).length := by
      intro s' hs; rw [hs]; exact Nat.lt_succ_self _
    have viaIH : anthropicRecvAux p now k b rest = (.chunk c, s') →
        s'.pending.length < (d :: rest).length := fun hr =>
      Nat.lt_trans (ih c s' hr) (Nat.lt_succ_self _)
    split at h
    · exact viaIH h
    · split at h
      · simp at h
      · split at h
        · simp at h
        · split at h
          · split at h
            · exact viaIH h
            · split at h
              · exact viaIH h
              · simp only [Prod.mk.injEq, RecvResult.chunk.injEq] at h
                exact step s' h.2.symm
          · split at h
            · exact viaIH h
            · split at h
              · exact viaIH h
              · split at h
                · split at h
                  · simp at h
                  · exact viaIH h
                · exact viaIH h

lemma geminiRecvAux_chunk_lt (p : String → Option GeminiStreamResponse)
    (now : Int) (k : SSEEnd) (b : HTTPBody) (model : String) :
    ∀ (l : List String) (cid : Int) (c : ResponseChunk) (s' : GeminiStream),
      geminiRecvAux p now k b model cid l = (.chunk c, s') →
      s'.pending.length < l.length := by
  intro l
  induction l with
  | nil =>
    intro cid c s' h
    cases k <;> simp [geminiRecvAux] at h
  | cons d rest ih =>
    intro cid c s' h
    rw [geminiRecvAux] at h
    have viaIH : ∀ cid', geminiRecvAux p now k b model cid' rest = (.chunk c, s') →
        s'.pending.length < (d :: rest).length := fun cid' hr =>
      Nat.lt_trans (ih cid' c s' hr) (Nat.lt_succ_self _)
    split at h
    · exact viaIH _ h
    · split at h
      · simp at h
      · split at h
        · exact viaIH _ h
        · simp only [] at h
          split at h
          · exact viaIH _ h
          · simp only [Prod.mk.injEq, RecvResult.chunk.injEq] at h
            rw [← h.2]
            exact Nat.lt_succ_self _

/-- A `Recv` call that returns a chunk has consumed at least one
pending event (the interpreters only loop forward). -/
lemma AnyStream.recv_chunk_lt {st st' : AnyStream} {c : ResponseChunk}
    (h : st.recv = (.chunk c, st')) :
    st'.pendingCount < st.pendingCount := by
  cases st with
  | oai p s =>
    simp only [AnyStream.recv, openaiRecv] at h
    have := openaiRecvAux_chunk_lt p s.endk s.body s.pending c
    cases hr : openaiRecvAux p s.endk s.body s.pending with
    | mk r s2 =>
      rw [hr] at h
      cases h' : r <;> rw [h'] at h <;> simp at h
      obtain ⟨h1, h2⟩ := h
      rw [← h2]
      simp only [AnyStream.pendingCount]
      exact this s2 (by rw [hr, h', h1])
  | dsk p s =>
    simp only [AnyStream.recv, deepseekRecv] at h
    have := deepseekRecvAux_chunk_lt p s.endk s.body s.pending c
    cases hr : deepseekRecvAux p s.endk s.body s.pending with
    | mk r s2 =>
      rw [hr] at h
      cases h' : r <;> rw [h'] at h <;> simp at h
      obtain ⟨h1, h2⟩ := h
      rw [← h2]
      simp only [AnyStream.pendingCount]
      exact this s2 (by rw [hr, h', h1])
  | anth p now s =>
    simp only [AnyStream.recv, anthropicRecv] at h
    have := anthropicRecvAux_chunk_lt p now s.endk s.body s.pending c
    cases hr : anthropicRecvAux p now s.endk s.body s.pending with
    | mk r s2 =>
      rw [hr] at h
      cases h' : r <;> rw [h'] at h <;> simp at h
      obtain ⟨h1, h2⟩ := h
      rw [← h2]
      simp only [AnyStream.pendingCount]
      exact this s2 (by rw [hr, h', h1])
  | gem p now s =>
    simp only [AnyStream.recv, geminiRecv] at h
    have := geminiRecvAux_chunk_lt p now s.endk s.body s.model s.pending s.chunkID c
    cases hr : geminiRecvAux p now s.endk s.body s.model s.chunkID s.pending with
    | mk r s2 =>
      rw [hr] at h
      cases h' : r <;> rw [h'] at h <;> simp at h
      obtain ⟨h1, h2⟩ := h
      rw [← h2]
      simp only [AnyStream.pendingCount]
      exact this s2 (by rw [hr, h', h1])

/-! ## Stream processor (pkg/api/streaming.go)

`StreamOptions` callbacks are Go closures; they are modelled as state
transformers over an abstract consumer accumulator `σ` (the closure's
captured state), returning the callback's `error` result.  `Process`
additionally returns a ghost log of the callback invocations and of the
deferred `Close`, so that "invoked exactly once" is expressible. -/

/-- `api.StreamOptions` over a consumer accumulator type `σ`.  A `none`
callback is a nil Go function pointer. -/
structure StreamOptions (σ : Type) where
  onChunk : Option (σ → ResponseChunk → σ × Option GoError)
  onComplete : Option (σ → Option GoError → σ)
  onText : Option (σ → String → σ × Option GoError)
  autoClose : Bool

/-- `api.DefaultStreamOptions`: no callbacks, auto-close on. -/
def defaultStreamOptions (σ : Type) : StreamOptions σ :=
  { onChunk := none, onComplete := none, onText := none, autoClose := true }

/-- One entry of the ghost invocation log of `process`. -/
inductive CbEvent where
  | chunkCb (c : ResponseChunk)
  | textCb (t : String)
  | completeCb (e : Option GoError)
  | closeCb
deriving DecidableEq, Repr

/-- The `if options.OnComplete != nil { options.OnComplete(err) }`
pattern of `Process`, with its log entry. -/
def onCompleteCall {σ : Type} (opts : StreamOptions σ) (acc : σ)
    (e : Option GoError) : σ × List CbEvent :=
  match opts.onComplete with
  | some f => (f acc e, [CbEvent.completeCb e])
  | none => (acc, [])

/-- The `for` loop of `DefaultStreamProcessor.Process`
(pkg/api/streaming.go): `Recv`; on `io.EOF` invoke `OnComplete(nil)`
and return nil; on error invoke `OnComplete(err)` and return it; on a
chunk invoke `OnChunk` (a callback error invokes `OnComplete` and
returns), then — when `OnText` is set, the chunk has a first choice and
its delta content is non-empty — invoke `OnText` (same error policy),
then loop. -/
def processLoop {σ : Type} (opts : StreamOptions σ) (st : AnyStream)
    (acc : σ) : Option GoError × σ × List CbEvent :=
  match h : st.recv with
  | (.eofSignal, _) =>
    let (acc1, log1) := onCompleteCall opts acc none
    (none, acc1, log1)
  | (.fail e, _) =>
    let (acc1, log1) := onCompleteCall opts acc (some (GoError.api e))
    (some (GoError.api e), acc1, log1)
  | (.chunk c, st') =>
    let (acc1, chunkLog, chunkErr) :
        σ × List CbEvent × Option GoError :=
      match opts.onChunk with
      | some f => let (a, e) := f acc c; (a, [CbEvent.chunkCb c], e)
      | none => (acc, [], none)
    match chunkErr with
    | some e =>
      let (acc2, log2) := onCompleteCall opts acc1 (some e)
      (some e, acc2, chunkLog ++ log2)
    | none =>
      let (acc2, textLog, textErr) :
          σ × List CbEvent × Option GoError :=
        match opts.onText, c.choices with
        | some f, ch :: _ =>
          if ch.delta.content ≠ "" then
            let (a, e) := f acc1 ch.delta.content
            (a, [CbEvent.textCb ch.delta.content], e)
          else (acc1, [], none)
        | _, _ => (acc1, [], none)
      match textErr with
      | some e =>
        let (acc3, log3) := onCompleteCall opts acc2 (some e)
        (some e, acc3, chunkLog ++ textLog ++ log3)
      | none =>
        let (res, acc3, log3) := processLoop opts st' acc2
        (res, acc3, chunkLog ++ textLog ++ log3)
  termination_by st.pendingCount
  decreasing_by exact AnyStream.recv_chunk_lt h

/-- `DefaultStreamProcessor.Process` (pkg/api/streaming.go): run the
loop, then fire the deferred `stream.Close()` when `AutoClose` is set
(a nil options pointer in Go selects `DefaultStreamOptions`; callers
here always pass options).  Returns the Go return value, the final
consumer state, and the ghost invocation log. -/
def process {σ : Type} (st : AnyStream) (opts : StreamOptions σ)
    (acc : σ) : Option GoError × σ × List CbEvent :=
  let (res, acc1, log1) := processLoop opts st acc
  if opts.autoClose then (res, acc1, log1 ++ [CbEvent.closeCb])
  else (res, acc1, log1)

/-- The `OnComplete` invocations recorded in a log. -/
def completeCalls : List CbEvent → List (Option GoError)
  | [] => []
  | CbEvent.completeCb e :: rest => e :: completeCalls rest
  | _ :: rest => completeCalls rest

/-- The `OnText` invocations recorded in a log. -/
def textCalls : List CbEvent → List String
  | [] => []
  | CbEvent.textCb t :: rest => t :: textCalls rest
  | _ :: rest => textCalls rest

lemma completeCalls_append (l1 l2 : List CbEvent) :
    completeCalls (l1 ++ l2) = completeCalls l1 ++ completeCalls l2 := by
  induction l1 with
  | nil => rfl
  | cons e rest ih =>
    cases e <;> simp [completeCalls, ih]

lemma textCalls_append (l1 l2 : List CbEvent) :
    textCalls (l1 ++ l2) = textCalls l1 ++ textCalls l2 := by
  induction l1 with
  | nil => rfl
  | cons e rest ih =>
    cases e <;> simp [textCalls, ih]

lemma processLoop_eofStep {σ : Type} (opts : StreamOptions σ)
    {st st1 : AnyStream} (acc : σ) (h : st.recv = (.eofSignal, st1)) :
    processLoop opts st acc =
      (none, (onCompleteCall opts acc none).1,
       (onCompleteCall opts acc none).2) := by
  rw [processLoop]
  split
  · rfl
  · rename_i e s1 heq
    rw [h] at heq
    simp at heq
  · rename_i c s1 heq
    rw [h] at heq
    simp at heq

lemma processLoop_failStep {σ : Type} (opts : StreamOptions σ)
    {st st1 : AnyStream} {e : ApiError} (acc : σ)
    (h : st.recv = (.fail e, st1)) :
    processLoop opts st acc =
      (some (GoError.api e),
       (onCompleteCall opts acc (some (GoError.api e))).1,
       (onCompleteCall opts acc (some (GoError.api e))).2) := by
  rw [processLoop]
  split
  · rename_i s1 heq
    rw [h] at heq
    simp at heq
  · rename_i e' s1 heq
    rw [h] at heq
    simp only [Prod.mk.injEq, RecvResult.fail.injEq] at heq
    rw [heq.1]
  · rename_i c s1 heq
    rw [h] at heq
    simp at heq

lemma processLoop_chunkStep {σ : Type} (opts : StreamOptions σ)
    {st st' : AnyStream} {c : ResponseChunk} (acc : σ)
    (h : st.recv = (.chunk c, st')) :
    processLoop opts st acc =
      (let (acc1, chunkLog, chunkErr) :
          σ × List CbEvent × Option GoError :=
        match opts.onChunk with
        | some f => let (a, e) := f acc c; (a, [CbEvent.chunkCb c], e)
        | none => (acc, [], none)
      match chunkErr with
      | some e =>
        let (acc2, log2) := onCompleteCall opts acc1 (some e)
        (some e, acc2, chunkLog ++ log2)
      | none =>
        let (acc2, textLog, textErr) :
            σ × List CbEvent × Option GoError :=
          match opts.onText, c.choices with
          | some f, ch :: _ =>
            if ch.delta.content ≠ "" then
              let (a, e) := f acc1 ch.delta.content
              (a, [CbEvent.textCb ch.delta.content], e)
            else (acc1, [], none)
          | _, _ => (acc1, [], none)
        match textErr with
        | some e =>
          let (acc3, log3) := onCompleteCall opts acc2 (some e)
          (some e, acc3, chunkLog ++ textLog ++ log3)
        | none =>
          let (res, acc3, log3) := processLoop opts st' acc2
          (res, acc3, chunkLog ++ textLog ++ log3)) := by
  rw [processLoop]
  split
  · rename_i s1 heq
    rw [h] at heq
    simp at heq
  · rename_i e s1 heq
    rw [h] at heq
    simp at heq
  · rename_i c' s1 heq
    rw [h] at heq
    simp only [Prod.mk.injEq, RecvResult.chunk.injEq] at heq
    rw [heq.1, heq.2]


/-- Core of the completion discipline: with `OnComplete` set, the loop
invokes it exactly once, and its argument is the loop's return value. -/
lemma processLoop_completeCalls {σ : Type} (opts : StreamOptions σ)
    (f : σ → Option GoError → σ) (hset : opts.onComplete = some f) :
    ∀ (n : ℕ) (st : AnyStream), st.pendingCount ≤ n → ∀ (acc : σ),
      completeCalls (processLoop opts st acc).2.2 =
        [(processLoop opts st acc).1] := by
  intro n
  induction n with
  | zero =>
    intro st hle acc
    match hrecv : st.recv with
    | (.eofSignal, s1) =>
      rw [processLoop_eofStep opts acc hrecv]
      simp [onCompleteCall, hset, completeCalls]
    | (.fail e, s1) =>
      rw [processLoop_failStep opts acc hrecv]
      simp [onCompleteCall, hset, completeCalls]
    | (.chunk c, s1) =>
      exact absurd (AnyStream.recv_chunk_lt hrecv) (by omega)
  | succ n ih =>
    intro st hle acc
    match hrecv : st.recv with
    | (.eofSignal, s1) =>
      rw [processLoop_eofStep opts acc hrecv]
      simp [onCompleteCall, hset, completeCalls]
    | (.fail e, s1) =>
      rw [processLoop_failStep opts acc hrecv]
      simp [onCompleteCall, hset, completeCalls]
    | (.chunk c, st') =>
      have hlt : st'.pendingCount ≤ n := by
        have := AnyStream.recv_chunk_lt hrecv
        omega
      rw [processLoop_chunkStep opts acc hrecv]
      cases hchunk : opts.onChunk with
      | some g =>
        try simp only [hchunk]
        cases hg : g acc c with
        | mk acc1 chErr =>
          try simp only [hg]
          cases chErr with
          | some e =>
            simp [completeCalls_append, onCompleteCall, hset, completeCalls]
          | none =>
            cases htext : opts.onText with
            | some tf =>
              try simp only [htext]
              cases hch : c.choices with
              | nil =>
                simp only [hch, completeCalls_append, completeCalls,
                  List.nil_append]
                exact ih st' hlt acc1
              | cons ch tl =>
                try simp only [hch]
                by_cases hcontent : ch.delta.content = ""
                · simp only [hcontent, ne_eq, not_true_eq_false, if_false,
                    completeCalls_append, completeCalls, List.nil_append]
                  exact ih st' hlt acc1
                · simp only [ne_eq, hcontent, not_false_eq_true, if_true]
                  cases htf : tf acc1 ch.delta.content with
                  | mk acc2 txErr =>
                    try simp only [htf]
                    cases txErr with
                    | some e =>
                      simp [completeCalls_append, onCompleteCall, hset,
                        completeCalls]
                    | none =>
                      simp only [completeCalls_append, completeCalls,
                        List.nil_append, List.append_nil]
                      exact ih st' hlt acc2
            | none =>
              simp only [htext, completeCalls_append, completeCalls,
                List.nil_append]
              exact ih st' hlt acc1
      | none =>
        try simp only [hchunk]
        cases htext : opts.onText with
        | some tf =>
          try simp only [htext]
          cases hch : c.choices with
          | nil =>
            simp only [hch, completeCalls_append, completeCalls,
              List.nil_append]
            exact ih st' hlt acc
          | cons ch tl =>
            try simp only [hch]
            by_cases hcontent : ch.delta.content = ""
            · simp only [hcontent, ne_eq, not_true_eq_false, if_false,
                completeCalls_append, completeCalls, List.nil_append]
              exact ih st' hlt acc
            · simp only [ne_eq, hcontent, not_false_eq_true, if_true]
              cases htf : tf acc ch.delta.content with
              | mk acc2 txErr =>
                try simp only [htf]
                cases txErr with
                | some e =>
                  simp [completeCalls_append, onCompleteCall, hset,
                    completeCalls]
                | none =>
                  simp only [completeCalls_append, completeCalls,
                    List.nil_append, List.append_nil]
                  exact ih st' hlt acc2
        | none =>
          simp only [htext, completeCalls_append, completeCalls,
            List.nil_append]
          exact ih st' hlt acc

/-! ## Byte-level SSE reader (pkg/utils/http.go)

The reader is modelled over a pure byte source: the remaining input is
a `List Char`.  `bufio.Reader.ReadBytes('\n')` returns the line with
its delimiter, or reports `io.EOF` once no delimiter remains (the Go
code discards the partial remainder returned alongside the error). -/

/-- `utils.SSEEvent` (pkg/utils/http.go); Go zero values are `""`/`0`. -/
structure SSEEvent where
  event : String
  data : String
  id : String
  retry : Int
deriving DecidableEq, Repr

/-- `bufio.Reader.ReadBytes('\n')`: the next line including its
trailing newline together with the rest of the input, or `none` at end
of input. -/
def readLine (input : List Char) : Option (List Char × List Char) :=
  match input.span (· ≠ '\n') with
  | (_, []) => none
  | (pre, _ :: post) => some (pre ++ ['\n'], post)

/-- `bytes.Split(buffer, "\n")`: segments between newlines (a trailing
newline yields a final empty segment, as in Go). -/
def splitLines : List Char → List (List Char)
  | [] => [[]]
  | c :: rest =>
    if c = '\n' then [] :: splitLines rest
    else
      match splitLines rest with
      | [] => [[c]]
      | l :: ls => (c :: l) :: ls

/-- `bytes.SplitN(line, ":", 2)`: the part before the first colon and
the part after it; `none` when the line has no colon (the Go code then
skips the line, `len(parts) != 2`). -/
def splitFieldValue : List Char → Option (List Char × List Char)
  | [] => none
  | c :: rest =>
    if c = ':' then some ([], rest)
    else
      match splitFieldValue rest with
      | none => none
      | some (f, v) => some (c :: f, v)

/-- One iteration of the field loop of `SSEReader.processBuffer`:
skip empty lines and `:`-comments; split on the first colon; strip at
most one leading space from the value; dispatch on the field name
(`event` overwrites, `data` appends with a `"\n"` separator, `id`
overwrites, `retry` is recorded as the fixed 3000 of the source;
anything else is ignored). -/
def processLine (ev : SSEEvent) (line : List Char) : SSEEvent :=
  if line = [] then ev
  else if line.head? = some ':' then ev
  else
    match splitFieldValue line with
    | none => ev
    | some (fieldC, valueRaw) =>
      let valueC := if valueRaw.head? = some ' ' then valueRaw.tail
                    else valueRaw
      let field := String.mk fieldC
      let value := String.mk valueC
      if field = "event" then { ev with event := value }
      else if field = "data" then
        { ev with data :=
            (if ev.data ≠ "" then ev.data ++ "\n" else ev.data) ++ value }
      else if field = "id" then { ev with id := value }
      else if field = "retry" then { ev with retry := 3000 }
      else ev

/-- `SSEReader.processBuffer` (pkg/utils/http.go): split the buffered
bytes into lines and fold the field loop over them. -/
def processBuffer (buffer : List Char) : SSEEvent :=
  (splitLines buffer).foldl processLine ⟨"", "", "", 0⟩

/-- `bytes.HasSuffix(buffer, "\n\n")`. -/
def hasSuffixNN (buffer : List Char) : Bool :=
  match buffer.reverse with
  | '\n' :: '\n' :: _ => true
  | _ => false

/-- `buffer[len(buffer)-2] == '\n'` (false on short buffers; the Go
code only consults it after checking `len(r.buffer) > 1`). -/
def secondLastIsNL (buffer : List Char) : Bool :=
  match buffer.reverse with
  | _ :: c :: _ => c = '\n'
  | _ => false

/-- The event-complete test of `SSEReader.ReadEvent`:
`bytes.HasSuffix(r.buffer, delimiter) || (len(line) == 1 && line[0] ==
'\n' && len(r.buffer) > 1 && r.buffer[len(r.buffer)-2] == '\n')`. -/
def eventDelimiterHit (buffer line : List Char) : Bool :=
  hasSuffixNN buffer ||
    (line.length == 1 && line.head? == some '\n' &&
      buffer.length > 1 && secondLastIsNL buffer)

/-- State of an `SSEReader`: remaining source bytes and the pending
buffer. -/
structure SSEReaderState where
  input : List Char
  buffer : List Char
deriving DecidableEq, Repr

lemma readLine_length_lt {input line rest : List Char}
    (h : readLine input = some (line, rest)) :
    rest.length < input.length := by
  unfold readLine at h
  rcases hs : input.span (· ≠ '\n') with ⟨pre, post⟩
  rw [hs] at h
  cases post with
  | nil => simp at h
  | cons c post' =>
    simp only [Option.some.injEq, Prod.mk.injEq] at h
    have hjoin : pre ++ c :: post' = input := by
      have h1 := List.takeWhile_append_dropWhile (p := fun x => x ≠ '\n')
        (l := input)
      rw [List.span_eq_take_drop] at hs
      simp only [Prod.mk.injEq] at hs
      rw [hs.1, hs.2] at h1
      exact h1
    rw [← h.2, ← hjoin]
    simp
    omega

/-- `SSEReader.ReadEvent` (pkg/utils/http.go) over a pure byte source.
Loop: read one line; at end of input flush a non-trivial buffer as a
final event (returning it only when it has data or a name), otherwise
report `io.EOF` (`none`); after appending a read line to the buffer,
a detected `\n\n` terminator parses the buffer, returns the event when
it has data or a name, and otherwise keeps reading with a fresh
buffer. -/
def readEvent : SSEReaderState → Option SSEEvent × SSEReaderState
  | ⟨input, buffer⟩ =>
    match h : readLine input with
    | none =>
      if buffer ≠ [] ∧ buffer ≠ ['\n'] then
        let ev := processBuffer (buffer ++ ['\n'])
        if ev.data ≠ "" ∨ ev.event ≠ "" then (some ev, ⟨input, []⟩)
        else (none, ⟨input, []⟩)
      else (none, ⟨input, buffer⟩)
    | some (line, rest) =>
      let buffer' := buffer ++ line
      if eventDelimiterHit buffer' line then
        let ev := processBuffer buffer'
        if ev.data ≠ "" ∨ ev.event ≠ "" then (some ev, ⟨rest, []⟩)
        else readEvent ⟨rest, []⟩
      else readEvent ⟨rest, buffer'⟩
  termination_by s => s.input.length
  decreasing_by
  · exact readLine_length_lt h
  · exact readLine_length_lt h

lemma readEvent_endStep {input : List Char} (buffer : List Char)
    (h : readLine input = none) :
    readEvent ⟨input, buffer⟩ =
      (if buffer ≠ [] ∧ buffer ≠ ['\n'] then
        if (processBuffer (buffer ++ ['\n'])).data ≠ "" ∨
            (processBuffer (buffer ++ ['\n'])).event ≠ "" then
          (some (processBuffer (buffer ++ ['\n'])), ⟨input, []⟩)
        else (none, ⟨input, []⟩)
      else (none, ⟨input, buffer⟩)) := by
  rw [readEvent]
  split
  · rfl
  · rename_i line rest heq
    rw [h] at heq
    simp at heq

lemma readEvent_lineStep {input line rest : List Char} (buffer : List Char)
    (h : readLine input = some (line, rest)) :
    readEvent ⟨input, buffer⟩ =
      (if eventDelimiterHit (buffer ++ line) line then
        if (processBuffer (buffer ++ line)).data ≠ "" ∨
            (processBuffer (buffer ++ line)).event ≠ "" then
          (some (processBuffer (buffer ++ line)), ⟨rest, []⟩)
        else readEvent ⟨rest, []⟩
      else readEvent ⟨rest, buffer ++ line⟩) := by
  rw [readEvent]
  split
  · rename_i heq
    rw [h] at heq
    simp at heq
  · rename_i line' rest' heq
    rw [h] at heq
    simp only [Option.some.injEq, Prod.mk.injEq] at heq
    rw [heq.1, heq.2]

lemma takeWhile_noNL {l2 : List Char} :
    ∀ (l1 : List Char), (∀ c ∈ l1, c ≠ '\n') →
      (l1 ++ '\n' :: l2).takeWhile (· ≠ '\n') = l1 := by
  intro l1
  induction l1 with
  | nil => intro _; simp [List.takeWhile]
  | cons c r ih =>
    intro hc
    have hcne : c ≠ '\n' := hc c (List.mem_cons_self c r)
    have hr := ih fun x hx => hc x (List.mem_cons_of_mem c hx)
    simpa [List.takeWhile_cons, hcne] using hr

lemma dropWhile_noNL {l2 : List Char} :
    ∀ (l1 : List Char), (∀ c ∈ l1, c ≠ '\n') →
      (l1 ++ '\n' :: l2).dropWhile (· ≠ '\n') = '\n' :: l2 := by
  intro l1
  induction l1 with
  | nil => intro _; simp [List.dropWhile]
  | cons c r ih =>
    intro hc
    have hcne : c ≠ '\n' := hc c (List.mem_cons_self c r)
    have hr := ih fun x hx => hc x (List.mem_cons_of_mem c hx)
    simpa [List.dropWhile_cons, hcne] using hr

lemma readLine_noNL {l1 l2 : List Char} (h : ∀ c ∈ l1, c ≠ '\n') :
    readLine (l1 ++ '\n' :: l2) = some (l1 ++ ['\n'], l2) := by
  unfold readLine
  rw [List.span_eq_take_drop, takeWhile_noNL l1 h, dropWhile_noNL l1 h]

lemma splitLines_noNL {l2 : List Char} :
    ∀ (l1 : List Char), (∀ c ∈ l1, c ≠ '\n') →
      splitLines (l1 ++ '\n' :: l2) = l1 :: splitLines l2 := by
  intro l1
  induction l1 with
  | nil => intro _; simp [splitLines]
  | cons c r ih =>
    intro hc
    have hcne : c ≠ '\n' := hc c (List.mem_cons_self c r)
    have hr := ih fun x hx => hc x (List.mem_cons_of_mem c hx)
    simp [List.cons_append, splitLines, hcne, List.append_eq, hr]

lemma splitFieldValue_dataLine (P : List Char) :
    splitFieldValue ("data: ".toList ++ P) =
      some ("data".toList, ' ' :: P) := by
  simp [splitFieldValue, String.toList]

lemma hasSuffixNN_NN (l : List Char) :
    hasSuffixNN (l ++ ['\n', '\n']) = true := by
  unfold hasSuffixNN
  rw [List.reverse_append]
  rfl

lemma hasSuffixNN_dataLine (P : List Char) (hP : ∀ c ∈ P, c ≠ '\n') :
    hasSuffixNN ("data: ".toList ++ P ++ ['\n']) = false := by
  unfold hasSuffixNN
  rw [List.reverse_append, List.reverse_append]
  cases hPr : P.reverse with
  | nil => rfl
  | cons c t =>
    have hc : c ∈ P := by
      rw [← List.mem_reverse, hPr]
      exact List.mem_cons_self c t
    have hcne : c ≠ '\n' := hP c hc
    simp only [List.reverse_cons, List.reverse_nil, List.nil_append,
      List.cons_append, List.singleton_append]
    split
    · rename_i heq
      simp only [List.cons.injEq] at heq
      exact absurd heq.2.1 hcne
    · rfl

lemma processLine_nil (ev : SSEEvent) : processLine ev [] = ev := by
  simp [processLine]

lemma processLine_dataLine (ev : SSEEvent) (P : List Char) :
    processLine ev ("data: ".toList ++ P) =
      { ev with data :=
          (if ev.data ≠ "" then ev.data ++ "\n" else ev.data) ++
            String.mk P } := by
  have hlist : "data: ".toList = ['d', 'a', 't', 'a', ':', ' '] := rfl
  unfold processLine
  rw [splitFieldValue_dataLine]
  simp [hlist]

lemma processBuffer_dataEvent (P : List Char) (hP : ∀ c ∈ P, c ≠ '\n') :
    processBuffer ("data: ".toList ++ P ++ ['\n', '\n']) =
      ⟨"", String.mk P, "", 0⟩ := by
  have hdata : ∀ c ∈ "data: ".toList, c ≠ '\n' := by decide
  have hnoNL : ∀ c ∈ "data: ".toList ++ P, c ≠ '\n' := by
    intro c hc
    rcases List.mem_append.mp hc with h | h
    · exact hdata c h
    · exact hP c h
  have hshape : "data: ".toList ++ P ++ ['\n', '\n'] =
      ("data: ".toList ++ P) ++ '\n' :: ['\n'] := by simp
  rw [processBuffer, hshape, splitLines_noNL _ hnoNL]
  have h2 : splitLines ['\n'] = [[], []] := rfl
  rw [h2]
  simp only [List.foldl, processLine_nil]
  rw [processLine_dataLine]
  rfl

lemma string_mk_ne_empty {P : List Char} (h : P ≠ []) : String.mk P ≠ "" := by
  intro hc
  exact h (congrArg String.data hc)

lemma readEvent_single_data (P : List Char) (hne : P ≠ [])
    (hP : ∀ c ∈ P, c ≠ '\n') :
    readEvent ⟨"data: ".toList ++ P ++ ['\n', '\n'], []⟩ =
      (some ⟨"", String.mk P, "", 0⟩, ⟨[], []⟩) := by
  have hdata : ∀ c ∈ "data: ".toList, c ≠ '\n' := by decide
  have hnoNL : ∀ c ∈ "data: ".toList ++ P, c ≠ '\n' := by
    intro c hc
    rcases List.mem_append.mp hc with h | h
    · exact hdata c h
    · exact hP c h
  have hshape : "data: ".toList ++ P ++ ['\n', '\n'] =
      ("data: ".toList ++ P) ++ '\n' :: ['\n'] := by simp
  have h1 : readLine ("data: ".toList ++ P ++ ['\n', '\n']) =
      some (("data: ".toList ++ P) ++ ['\n'], ['\n']) := by
    rw [hshape]
    exact readLine_noNL hnoNL
  rw [readEvent_lineStep [] h1]
  have hdh1 : eventDelimiterHit ([] ++ (("data: ".toList ++ P) ++ ['\n']))
      (("data: ".toList ++ P) ++ ['\n']) = false := by
    have hsuf : hasSuffixNN ("data: ".toList ++ P ++ ['\n']) = false :=
      hasSuffixNN_dataLine P hP
    have hlen : ((("data: ".toList ++ P) ++ ['\n']).length == 1) = false := by
      have h6 : ("data: ".toList).length = 6 := rfl
      simp [List.length_append, h6]
    simp at hsuf
    simp [eventDelimiterHit, hlen, hsuf]
  rw [hdh1]
  simp only [Bool.false_eq_true, if_false, List.nil_append]
  have h2 : readLine ['\n'] = some (['\n'], []) := rfl
  rw [readEvent_lineStep (("data: ".toList ++ P) ++ ['\n']) h2]
  have hdh2 : eventDelimiterHit ((("data: ".toList ++ P) ++ ['\n']) ++ ['\n'])
      ['\n'] = true := by
    have hsuf2 := hasSuffixNN_NN ("data: ".toList ++ P)
    simp at hsuf2
    simp [eventDelimiterHit, hsuf2]
  rw [hdh2]
  have hbuf : ((("data: ".toList ++ P) ++ ['\n']) ++ ['\n']) =
      "data: ".toList ++ P ++ ['\n', '\n'] := by simp
  rw [hbuf, processBuffer_dataEvent P hP]
  simp [string_mk_ne_empty hne]

lemma readEvent_empty : readEvent ⟨[], []⟩ = (none, ⟨[], []⟩) := by
  have h : readLine ([] : List Char) = none := rfl
  rw [readEvent_endStep [] h]
  simp

lemma readEvent_multiline :
    readEvent ⟨"data: foo\ndata: bar\n\n".toList, []⟩ =
      (some ⟨"", "foo\nbar", "", 0⟩, ⟨[], []⟩) := by
  have h1 : readLine ("data: foo\ndata: bar\n\n".toList) =
      some ("data: foo\n".toList, "data: bar\n\n".toList) := by decide
  rw [readEvent_lineStep [] h1]
  have hd1 : eventDelimiterHit ([] ++ "data: foo\n".toList)
      "data: foo\n".toList = false := by decide
  rw [hd1]
  simp only [Bool.false_eq_true, if_false, List.nil_append]
  have h2 : readLine ("data: bar\n\n".toList) =
      some ("data: bar\n".toList, "\n".toList) := by decide
  rw [readEvent_lineStep _ h2]
  have hd2 : eventDelimiterHit ("data: foo\n".toList ++ "data: bar\n".toList)
      "data: bar\n".toList = false := by decide
  rw [hd2]
  simp only [Bool.false_eq_true, if_false]
  have h3 : readLine ("\n".toList) = some (['\n'], []) := by decide
  rw [readEvent_lineStep _ h3]
  have hd3 : eventDelimiterHit
      (("data: foo\n".toList ++ "data: bar\n".toList) ++ ['\n'])
      ['\n'] = true := by decide
  rw [hd3]
  have hpb : processBuffer
      (("data: foo\n".toList ++ "data: bar\n".toList) ++ ['\n']) =
      ⟨"", "foo\nbar", "", 0⟩ := by decide
  rw [hpb]
  simp

/-! ## Claim theorems -/

/-- A restriction of `json.Unmarshal` into `OpenAIStreamResponse`,
consistent with Go: the JSON object with an empty `choices` array
unmarshals to the zero-valued struct, everything else is unknown to
this oracle. -/
def c1Parse : String → Option OpenAIStreamResponse := fun s =>
  if s = "\x7b\"choices\":[]\x7d" then some ⟨"", "", 0, "", []⟩ else none

/-- C1 counterexample: an openai-style stream whose wire carries a
further data event after `[DONE]`.  The first `Recv` returns the
completion signal, yet the second `Recv` returns a `ResponseChunk`:
the stream keeps no completion latch. -/
theorem c1_counterexample :
    openaiRecv c1Parse
        ⟨["[DONE]", "\x7b\"choices\":[]\x7d"], .eofEnd, ⟨false, none⟩⟩ =
      (.eofSignal,
        ⟨["\x7b\"choices\":[]\x7d"], .eofEnd, ⟨false, none⟩⟩) ∧
    openaiRecv c1Parse
        ⟨["\x7b\"choices\":[]\x7d"], .eofEnd, ⟨false, none⟩⟩ =
      (.chunk ⟨"", "", 0, "", []⟩, ⟨[], .eofEnd, ⟨false, none⟩⟩) := by
  constructor <;> decide

/-- C1 (amended): once `Recv` has returned the completion signal
because the underlying reader reached end-of-input, the stream state is
unchanged, so every later `Recv` returns the completion signal again
and never a chunk.  (After a `[DONE]`-sentinel completion or a fatal
error the code keeps no latch, and a later `Recv` may return a chunk —
see the counterexample.) -/
theorem c1_eof_completion_idempotent
    (po : String → Option OpenAIStreamResponse)
    (pd : String → Option DeepSeekStreamResponse) (b b' : HTTPBody) :
    openaiRecv po ⟨[], .eofEnd, b⟩ = (.eofSignal, ⟨[], .eofEnd, b⟩) ∧
    deepseekRecv pd ⟨[], .eofEnd, b'⟩ = (.eofSignal, ⟨[], .eofEnd, b'⟩) := by
  constructor <;> rfl

/-- C4: a raw event whose data value is exactly `"[DONE]"` makes the
simple-delta (OpenAI/DeepSeek) `Recv` return the completion signal and
never a chunk for that event.  The statement holds for every parse
oracle `po`/`pd` and the right-hand side does not mention the oracle:
the `"[DONE]"` value is never handed to the JSON parser. -/
theorem c4_done_sentinel
    (po : String → Option OpenAIStreamResponse)
    (pd : String → Option DeepSeekStreamResponse)
    (rest rest' : List String) (k k' : SSEEnd) (b b' : HTTPBody) :
    openaiRecv po ⟨"[DONE]" :: rest, k, b⟩ = (.eofSignal, ⟨rest, k, b⟩) ∧
    deepseekRecv pd ⟨"[DONE]" :: rest', k', b'⟩ =
      (.eofSignal, ⟨rest', k', b'⟩) := by
  constructor <;> rfl

/-- C9: `Close` is idempotent on every unified response stream — after
a first `Close`, a second `Close` returns no error (the stream `Close`
methods delegate to the HTTP body closer, which is guarded by its
`closed` flag; the model is total, so no panic is possible). -/
theorem c9_close_idempotent (st : AnyStream) :
    (st.closeStream.2.closeStream).1 = none := by
  cases st with
  | oai p s =>
    simp only [AnyStream.closeStream, openaiClose, HTTPBody.close]
    by_cases h : s.body.closed <;> simp [h]
  | dsk p s =>
    simp only [AnyStream.closeStream, deepseekClose, HTTPBody.close]
    by_cases h : s.body.closed <;> simp [h]
  | anth p now s =>
    simp only [AnyStream.closeStream, anthropicClose, HTTPBody.close]
    by_cases h : s.body.closed <;> simp [h]
  | gem p now s =>
    simp only [AnyStream.closeStream, geminiClose, HTTPBody.close]
    by_cases h : s.body.closed <;> simp [h]

/-- C2: for a parsed Anthropic `message_delta` event, `Recv` treats the
event as completion exactly when `Message.StopReason` is non-empty;
with an empty stop reason the event is a no-op and `Recv` continues
reading transparently from the remaining events. -/
theorem c2_message_delta_completion
    (parse : String → Option AnthropicStreamResponse) (now : Int)
    (d : String) (rest : List String) (k : SSEEnd) (b : HTTPBody)
    (r : AnthropicStreamResponse) (hd : d ≠ "")
    (hr : parse (parseSSEData d) = some r)
    (ht : r.type = "message_delta") :
    (r.message.stopReason ≠ "" →
      anthropicRecv parse now ⟨d :: rest, k, b⟩ = (.eofSignal, ⟨rest, k, b⟩)) ∧
    (r.message.stopReason = "" →
      anthropicRecv parse now ⟨d :: rest, k, b⟩ =
        anthropicRecv parse now ⟨rest, k, b⟩) := by
  constructor
  · intro hstop
    simp [anthropicRecv, anthropicRecvAux, hd, hr, ht, hstop]
  · intro hstop
    simp [anthropicRecv, anthropicRecvAux, hd, hr, ht, hstop]

/-- Wire data of a `message_delta` event carrying a stop reason. -/
def c2DataStop : String :=
  "\x7b\"type\":\"message_delta\",\"message\":\x7b\"stop_reason\":\"end_turn\"\x7d\x7d"

/-- Wire data of a `message_delta` event without a stop reason. -/
def c2DataNoStop : String := "\x7b\"type\":\"message_delta\"\x7d"

/-- The parsed struct of `c2DataStop` under `json.Unmarshal`. -/
def c2RespStop : AnthropicStreamResponse :=
  ⟨"message_delta", ⟨"", "", "", [], "", "end_turn", ""⟩, none, none, 0⟩

/-- The parsed struct of `c2DataNoStop` under `json.Unmarshal`. -/
def c2RespNoStop : AnthropicStreamResponse :=
  ⟨"message_delta", anthropicZeroMessage, none, none, 0⟩

/-- A restriction of `json.Unmarshal` into `AnthropicStreamResponse`
covering the two `message_delta` wire events above. -/
def c2Parse : String → Option AnthropicStreamResponse := fun s =>
  if s = c2DataStop then some c2RespStop
  else if s = c2DataNoStop then some c2RespNoStop
  else none

/-- C2 witness: a `message_delta` carrying `stop_reason "end_turn"`
completes the stream; one carrying no stop reason is skipped and
reading continues with the rest of the stream. -/
theorem c2_message_delta_completion_witness :
    anthropicRecv c2Parse 0 ⟨[c2DataStop], .eofEnd, ⟨false, none⟩⟩ =
      (.eofSignal, ⟨[], .eofEnd, ⟨false, none⟩⟩) ∧
    anthropicRecv c2Parse 0 ⟨[c2DataNoStop], .eofEnd, ⟨false, none⟩⟩ =
      anthropicRecv c2Parse 0 ⟨[], .eofEnd, ⟨false, none⟩⟩ := by
  constructor
  · exact (c2_message_delta_completion c2Parse 0 c2DataStop [] .eofEnd
      ⟨false, none⟩ c2RespStop (by decide) (by decide) rfl).1 (by decide)
  · exact (c2_message_delta_completion c2Parse 0 c2DataNoStop [] .eofEnd
      ⟨false, none⟩ c2RespNoStop (by decide) (by decide) rfl).2 rfl

/-- Wire data of a `message_start` event. -/
def c3DataStart : String := "\x7b\"type\":\"message_start\"\x7d"

/-- Wire data of a `content_block_delta` text event carrying `"a"`. -/
def c3DataA : String :=
  "\x7b\"type\":\"content_block_delta\",\"index\":0,\"delta\":\x7b\"type\":\"text\",\"text\":\"a\"\x7d\x7d"

/-- Wire data of a `content_block_delta` text event carrying `"b"`. -/
def c3DataB : String :=
  "\x7b\"type\":\"content_block_delta\",\"index\":0,\"delta\":\x7b\"type\":\"text\",\"text\":\"b\"\x7d\x7d"

/-- Wire data of a `message_stop` event. -/
def c3DataStop : String := "\x7b\"type\":\"message_stop\"\x7d"

/-- A restriction of `json.Unmarshal` into `AnthropicStreamResponse`
covering the four-event scenario `message_start`,
`content_block_delta("a")`, `content_block_delta("b")`,
`message_stop`. -/
def c3Parse : String → Option AnthropicStreamResponse := fun s =>
  if s = c3DataStart then
    some ⟨"message_start", anthropicZeroMessage, none, none, 0⟩
  else if s = c3DataA then
    some ⟨"content_block_delta", anthropicZeroMessage, none,
      some ⟨"text", "a"⟩, 0⟩
  else if s = c3DataB then
    some ⟨"content_block_delta", anthropicZeroMessage, none,
      some ⟨"text", "b"⟩, 0⟩
  else if s = c3DataStop then
    some ⟨"message_stop", anthropicZeroMessage, none, none, 0⟩
  else none

/-- C3: on the Anthropic event sequence `message_start`,
`content_block_delta(text "a")`, `content_block_delta(text "b")`,
`message_stop`, successive `Recv` calls return exactly the chunk with
text `"a"` (assistant role at block index 0), the chunk with `"b"`,
and then the completion signal; neither `message_start` nor
`message_stop` produces a chunk. -/
theorem c3_anthropic_scenario (now : Int) :
    anthropicRecv c3Parse now
        ⟨[c3DataStart, c3DataA, c3DataB, c3DataStop], .eofEnd,
          ⟨false, none⟩⟩ =
      (.chunk ⟨"", "chat.completion.chunk", now, "",
          [⟨0, ⟨"assistant", "a"⟩, ""⟩]⟩,
        ⟨[c3DataB, c3DataStop], .eofEnd, ⟨false, none⟩⟩) ∧
    anthropicRecv c3Parse now
        ⟨[c3DataB, c3DataStop], .eofEnd, ⟨false, none⟩⟩ =
      (.chunk ⟨"", "chat.completion.chunk", now, "",
          [⟨0, ⟨"assistant", "b"⟩, ""⟩]⟩,
        ⟨[c3DataStop], .eofEnd, ⟨false, none⟩⟩) ∧
    anthropicRecv c3Parse now
        ⟨[c3DataStop], .eofEnd, ⟨false, none⟩⟩ =
      (.eofSignal, ⟨[], .eofEnd, ⟨false, none⟩⟩) := by
  refine ⟨?_, ?_, ?_⟩ <;> rfl

lemma anthropicRecvAux_chunk_shape
    (parse : String → Option AnthropicStreamResponse) (now : Int)
    (k : SSEEnd) (b : HTTPBody) :
    ∀ (l : List String) (c : ResponseChunk) (s' : AnthropicStream),
      anthropicRecvAux parse now k b l = (.chunk c, s') →
      c.id = "" ∧ c.object = "chat.completion.chunk" ∧ c.model = "" ∧
      c.created = now ∧
      ∃ ch, c.choices = [ch] ∧ ch.delta.role = "assistant" := by
  intro l
  induction l with
  | nil =>
    intro c s' h
    cases k <;> simp [anthropicRecvAux] at h
  | cons d rest ih =>
    intro c s' h
    rw [anthropicRecvAux] at h
    split at h
    · exact ih c s' h
    · split at h
      · simp at h
      · split at h
        · simp at h
        · split at h
          · split at h
            · exact ih c s' h
            · split at h
              · exact ih c s' h
              · simp only [Prod.mk.injEq, RecvResult.chunk.injEq] at h
                rw [← h.1]
                exact ⟨rfl, rfl, rfl, rfl, _, rfl, rfl⟩
          · split at h
            · exact ih c s' h
            · split at h
              · exact ih c s' h
              · split at h
                · split at h
                  · simp at h
                  · exact ih c s' h
                · exact ih c s' h

/-- C10: every chunk the Anthropic interpreter emits has an empty `ID`,
an empty `Model`, `Object` `"chat.completion.chunk"` (and `Created`
equal to the wall clock at emission), and exactly one choice whose
delta role is `assistant`. -/
theorem c10_anthropic_chunk_shape
    (parse : String → Option AnthropicStreamResponse) (now : Int)
    (s : AnthropicStream) (c : ResponseChunk) (s' : AnthropicStream)
    (h : anthropicRecv parse now s = (.chunk c, s')) :
    c.id = "" ∧ c.object = "chat.completion.chunk" ∧ c.model = "" ∧
    c.created = now ∧
    ∃ ch, c.choices = [ch] ∧ ch.delta.role = "assistant" :=
  anthropicRecvAux_chunk_shape parse now s.endk s.body s.pending c s' h

/-- C10 witness: the claim's shape facts at the concrete chunk the
interpreter emits for `content_block_delta(text "a")`. -/
theorem c10_anthropic_chunk_shape_witness :
    let c : ResponseChunk :=
      ⟨"", "chat.completion.chunk", 7, "", [⟨0, ⟨"assistant", "a"⟩, ""⟩]⟩
    c.id = "" ∧ c.object = "chat.completion.chunk" ∧ c.model = "" ∧
    c.created = 7 ∧
    ∃ ch, c.choices = [ch] ∧ ch.delta.role = "assistant" :=
  c10_anthropic_chunk_shape c3Parse 7
    ⟨[c3DataA], .eofEnd, ⟨false, none⟩⟩ _ ⟨[], .eofEnd, ⟨false, none⟩⟩ rfl

/-- C7: the Gemini interpreter's no-op and choice-building rules.
(1) An event whose parsed data has an empty `candidates` array produces
no chunk: `Recv` continues with the remaining events.
(2) A candidate with a non-empty `finishReason` contributes exactly the
empty-text assistant choice carrying that reason.
(3) The parts of a candidate are concatenated into one delta text
(`geminiPartsText` is the concatenation of the `parts[].text`s), and a
finish-reason-free candidate with non-empty concatenated text
contributes exactly that one choice.
(4) An event whose candidates yield zero resulting choices is likewise
a no-op: `Recv` continues with the remaining events. -/
theorem c7_gemini_no_op_and_choices :
    (∀ (parse : String → Option GeminiStreamResponse) (now : Int)
       (k : SSEEnd) (b : HTTPBody) (model : String) (cid : Int)
       (d : String) (rest : List String) (r : GeminiStreamResponse),
       d ≠ "" → parse (parseSSEData d) = some r → r.candidates = [] →
       geminiRecv parse now ⟨d :: rest, k, b, model, cid⟩ =
         geminiRecv parse now ⟨rest, k, b, model, cid⟩) ∧
    (∀ (candidate : GeminiCandidate) (more : List GeminiCandidate),
       candidate.finishReason ≠ "" →
       geminiBuildChoices (candidate :: more) =
         ⟨candidate.index, ⟨"assistant", ""⟩, candidate.finishReason⟩ ::
           geminiBuildChoices more) ∧
    (∀ parts : List GeminiPart,
       geminiPartsText parts = String.join (parts.map GeminiPart.text)) ∧
    (∀ (candidate : GeminiCandidate) (more : List GeminiCandidate),
       candidate.finishReason = "" →
       geminiPartsText candidate.content.parts ≠ "" →
       geminiBuildChoices (candidate :: more) =
         ⟨candidate.index,
           ⟨"assistant", geminiPartsText candidate.content.parts⟩, ""⟩ ::
           geminiBuildChoices more) ∧
    (∀ (parse : String → Option GeminiStreamResponse) (now : Int)
       (k : SSEEnd) (b : HTTPBody) (model : String) (cid : Int)
       (d : String) (rest : List String) (r : GeminiStreamResponse),
       d ≠ "" → parse (parseSSEData d) = some r →
       geminiBuildChoices r.candidates = [] →
       geminiRecv parse now ⟨d :: rest, k, b, model, cid⟩ =
         geminiRecv parse now ⟨rest, k, b, model, cid⟩) := by
  refine ⟨?_, ?_, ?_, ?_, ?_⟩
  · intro parse now k b model cid d rest r hd hr hc
    simp [geminiRecv, geminiRecvAux, hd, hr, hc]
  · intro candidate more hfr
    simp [geminiBuildChoices, hfr]
  · intro parts
    show geminiPartsText parts = (parts.map GeminiPart.text).foldl (· ++ ·) ""
    rw [geminiPartsText, List.foldl_map]
  · intro candidate more hfr htext
    simp [geminiBuildChoices, hfr, htext]
  · intro parse now k b model cid d rest r hd hr hc
    rcases he : r.candidates with _ | ⟨c0, cs⟩
    · simp [geminiRecv, geminiRecvAux, hd, hr, he]
    · rw [he] at hc
      simp [geminiRecv, geminiRecvAux, hd, hr, he, hc]

/-- Wire data of a Gemini event with an empty `candidates` array. -/
def c7DataEmpty : String := "\x7b\"candidates\":[]\x7d"

/-- Wire data of a Gemini event whose single candidate has no finish
reason and no parts, hence yields zero choices. -/
def c7DataNoChoice : String :=
  "\x7b\"candidates\":[\x7b\"content\":\x7b\"parts\":[]\x7d\x7d]\x7d"

/-- A restriction of `json.Unmarshal` into `GeminiStreamResponse`
covering the two wire events above. -/
def c7Parse : String → Option GeminiStreamResponse := fun s =>
  if s = c7DataEmpty then some ⟨[]⟩
  else if s = c7DataNoChoice then some ⟨[⟨⟨[], ""⟩, "", 0⟩]⟩
  else none

/-- C7 witness: the five parts of `c7_gemini_no_op_and_choices` at
concrete inputs. -/
theorem c7_gemini_no_op_and_choices_witness :
    (geminiRecv c7Parse 0
        ⟨[c7DataEmpty], .eofEnd, ⟨false, none⟩, "gemini-pro", 0⟩ =
      geminiRecv c7Parse 0
        ⟨[], .eofEnd, ⟨false, none⟩, "gemini-pro", 0⟩) ∧
    (geminiBuildChoices [⟨⟨[], ""⟩, "STOP", 2⟩] =
      [⟨2, ⟨"assistant", ""⟩, "STOP"⟩]) ∧
    (geminiPartsText [⟨"He"⟩, ⟨"llo"⟩] =
      String.join ([⟨"He"⟩, ⟨"llo"⟩].map GeminiPart.text)) ∧
    (geminiBuildChoices [⟨⟨[⟨"He"⟩, ⟨"llo"⟩], "model"⟩, "", 1⟩] =
      [⟨1, ⟨"assistant", geminiPartsText [⟨"He"⟩, ⟨"llo"⟩]⟩, ""⟩]) ∧
    (geminiRecv c7Parse 0
        ⟨[c7DataNoChoice], .eofEnd, ⟨false, none⟩, "gemini-pro", 0⟩ =
      geminiRecv c7Parse 0
        ⟨[], .eofEnd, ⟨false, none⟩, "gemini-pro", 0⟩) := by
  refine ⟨?_, ?_, ?_, ?_, ?_⟩
  · exact c7_gemini_no_op_and_choices.1 c7Parse 0 .eofEnd ⟨false, none⟩
      "gemini-pro" 0 c7DataEmpty [] ⟨[]⟩ (by decide) (by decide) rfl
  · exact c7_gemini_no_op_and_choices.2.1 ⟨⟨[], ""⟩, "STOP", 2⟩ []
      (by decide)
  · exact c7_gemini_no_op_and_choices.2.2.1 [⟨"He"⟩, ⟨"llo"⟩]
  · exact c7_gemini_no_op_and_choices.2.2.2.1
      ⟨⟨[⟨"He"⟩, ⟨"llo"⟩], "model"⟩, "", 1⟩ [] rfl (by decide)
  · exact c7_gemini_no_op_and_choices.2.2.2.2 c7Parse 0 .eofEnd
      ⟨false, none⟩ "gemini-pro" 0 c7DataNoChoice [] ⟨[⟨⟨[], ""⟩, "", 0⟩]⟩
      (by decide) (by decide) rfl

/-- C6: with `OnComplete` set, `Process` invokes it exactly once, with
exactly the value it returns (`none` on normal completion, the
terminating error otherwise).  Moreover a non-nil error from the
`OnChunk` callback stops processing immediately, and so does a non-nil
error from the `OnText` callback — both when `OnChunk` is nil and when
a set `OnChunk` succeeded on the same chunk: that error is passed to
`OnComplete`, returned, and no further callback runs — only the
deferred auto-close. -/
theorem c6_oncomplete_exactly_once {σ : Type} (st : AnyStream)
    (opts : StreamOptions σ) (acc : σ) (f : σ → Option GoError → σ)
    (hset : opts.onComplete = some f) :
    (completeCalls (process st opts acc).2.2 = [(process st opts acc).1]) ∧
    (∀ (g : σ → ResponseChunk → σ × Option GoError) (c : ResponseChunk)
       (st1 : AnyStream) (acc1 : σ) (e : GoError),
       opts.onChunk = some g → st.recv = (.chunk c, st1) →
       g acc c = (acc1, some e) →
       process st opts acc =
         (some e, f acc1 (some e),
          [CbEvent.chunkCb c, CbEvent.completeCb (some e)] ++
            (if opts.autoClose then [CbEvent.closeCb] else []))) ∧
    (∀ (tf : σ → String → σ × Option GoError) (c : ResponseChunk)
       (st1 : AnyStream) (ch : ChunkChoice) (tl : List ChunkChoice)
       (acc1 : σ) (e : GoError),
       opts.onChunk = none → opts.onText = some tf →
       st.recv = (.chunk c, st1) → c.choices = ch :: tl →
       ch.delta.content ≠ "" → tf acc ch.delta.content = (acc1, some e) →
       process st opts acc =
         (some e, f acc1 (some e),
          [CbEvent.textCb ch.delta.content, CbEvent.completeCb (some e)] ++
            (if opts.autoClose then [CbEvent.closeCb] else []))) ∧
    (∀ (g : σ → ResponseChunk → σ × Option GoError)
       (tf : σ → String → σ × Option GoError) (c : ResponseChunk)
       (st1 : AnyStream) (ch : ChunkChoice) (tl : List ChunkChoice)
       (acc1 acc2 : σ) (e : GoError),
       opts.onChunk = some g → opts.onText = some tf →
       st.recv = (.chunk c, st1) → c.choices = ch :: tl →
       ch.delta.content ≠ "" → g acc c = (acc1, none) →
       tf acc1 ch.delta.content = (acc2, some e) →
       process st opts acc =
         (some e, f acc2 (some e),
          [CbEvent.chunkCb c, CbEvent.textCb ch.delta.content,
           CbEvent.completeCb (some e)] ++
            (if opts.autoClose then [CbEvent.closeCb] else []))) := by
  refine ⟨?_, ?_, ?_, ?_⟩
  · have hmain := processLoop_completeCalls opts f hset st.pendingCount st
      le_rfl acc
    by_cases hac : opts.autoClose <;>
      simp [process, hac, completeCalls_append, completeCalls, hmain]
  · intro g c st1 acc1 e hchunk hrecv hg
    have hstep := processLoop_chunkStep opts acc hrecv
    rw [hchunk] at hstep
    simp only [hg, onCompleteCall, hset] at hstep
    by_cases hac : opts.autoClose <;> simp [process, hac, hstep]
  · intro tf c st1 ch tl acc1 e hchunk htext hrecv hch hcontent htf
    have hstep := processLoop_chunkStep opts acc hrecv
    rw [hchunk, htext, hch] at hstep
    simp only [ne_eq, hcontent, not_false_eq_true, if_true, htf,
      onCompleteCall, hset] at hstep
    by_cases hac : opts.autoClose <;> simp [process, hac, hstep]
  · intro g tf c st1 ch tl acc1 acc2 e hchunk htext hrecv hch hcontent hg htf
    have hstep := processLoop_chunkStep opts acc hrecv
    rw [hchunk, htext, hch] at hstep
    simp only [hg, ne_eq, hcontent, not_false_eq_true, if_true, htf,
      onCompleteCall, hset] at hstep
    by_cases hac : opts.autoClose <;> simp [process, hac, hstep]

/-- Wire data of an openai-style delta event with one choice carrying
text `"Hi"`. -/
def c6Data : String :=
  "\x7b\"id\":\"c1\",\"choices\":[\x7b\"index\":0,\"delta\":\x7b\"role\":\"assistant\",\"content\":\"Hi\"\x7d\x7d]\x7d"

/-- The parsed struct of `c6Data` under `json.Unmarshal`. -/
def c6Resp : OpenAIStreamResponse :=
  ⟨"c1", "", 0, "", [⟨0, ⟨"Hi", "assistant"⟩, ""⟩]⟩

/-- A restriction of `json.Unmarshal` into `OpenAIStreamResponse`
covering `c6Data`. -/
def c6Parse : String → Option OpenAIStreamResponse := fun s =>
  if s = c6Data then some c6Resp else none

/-- The chunk `Recv` adapts from `c6Resp`. -/
def c6Chunk : ResponseChunk := openaiAdaptChunk c6Resp

/-- The single-event openai stream behind the C6 witness. -/
def c6Stream : AnyStream :=
  .oai c6Parse ⟨[c6Data], .eofEnd, ⟨false, none⟩⟩

/-- C6 witness: on a concrete one-chunk stream, `OnComplete` fires
exactly once with the returned value; an erroring `OnChunk` callback
aborts with exactly one chunk invocation followed by `OnComplete` and
the deferred close; an erroring `OnText` aborts likewise, both when
`OnChunk` is nil and when a set `OnChunk` succeeded first. -/
theorem c6_oncomplete_exactly_once_witness :
    (completeCalls
        (process c6Stream
          ⟨some fun n (_ : ResponseChunk) => (n + 1, some (.user "stop")),
           some fun n (_ : Option GoError) => n + 10, none, true⟩
          (0 : ℕ)).2.2 =
      [(process c6Stream
          ⟨some fun n (_ : ResponseChunk) => (n + 1, some (.user "stop")),
           some fun n (_ : Option GoError) => n + 10, none, true⟩
          (0 : ℕ)).1]) ∧
    (process c6Stream
        ⟨some fun n (_ : ResponseChunk) => (n + 1, some (.user "stop")),
         some fun n (_ : Option GoError) => n + 10, none, true⟩
        (0 : ℕ) =
      (some (.user "stop"), 11,
        [CbEvent.chunkCb c6Chunk, CbEvent.completeCb (some (.user "stop")),
         CbEvent.closeCb])) ∧
    (process c6Stream
        ⟨none, some fun n (_ : Option GoError) => n + 10,
         some fun n (_ : String) => (n + 2, some (.user "texterr")), true⟩
        (0 : ℕ) =
      (some (.user "texterr"), 12,
        [CbEvent.textCb "Hi", CbEvent.completeCb (some (.user "texterr")),
         CbEvent.closeCb])) ∧
    (process c6Stream
        ⟨some fun n (_ : ResponseChunk) => (n + 1, none),
         some fun n (_ : Option GoError) => n + 10,
         some fun n (_ : String) => (n + 2, some (.user "texterr")), true⟩
        (0 : ℕ) =
      (some (.user "texterr"), 13,
        [CbEvent.chunkCb c6Chunk, CbEvent.textCb "Hi",
         CbEvent.completeCb (some (.user "texterr")),
         CbEvent.closeCb])) := by
  refine ⟨?_, ?_, ?_, ?_⟩
  · exact (c6_oncomplete_exactly_once c6Stream _ 0 _ rfl).1
  · simpa using (c6_oncomplete_exactly_once c6Stream
      ⟨some fun n (_ : ResponseChunk) => (n + 1, some (.user "stop")),
       some fun n (_ : Option GoError) => n + 10, none, true⟩
      (0 : ℕ) _ rfl).2.1
      (fun n _ => (n + 1, some (.user "stop"))) c6Chunk
      (.oai c6Parse ⟨[], .eofEnd, ⟨false, none⟩⟩) 1 (.user "stop")
      rfl rfl rfl
  · simpa using (c6_oncomplete_exactly_once c6Stream
      ⟨none, some fun n (_ : Option GoError) => n + 10,
       some fun n (_ : String) => (n + 2, some (.user "texterr")), true⟩
      (0 : ℕ) _ rfl).2.2.1
      (fun n _ => (n + 2, some (.user "texterr"))) c6Chunk
      (.oai c6Parse ⟨[], .eofEnd, ⟨false, none⟩⟩)
      ⟨0, ⟨"assistant", "Hi"⟩, ""⟩ [] 2 (.user "texterr")
      rfl rfl rfl rfl (by decide) rfl
  · simpa using (c6_oncomplete_exactly_once c6Stream
      ⟨some fun n (_ : ResponseChunk) => (n + 1, none),
       some fun n (_ : Option GoError) => n + 10,
       some fun n (_ : String) => (n + 2, some (.user "texterr")), true⟩
      (0 : ℕ) _ rfl).2.2.2
      (fun n _ => (n + 1, none))
      (fun n _ => (n + 2, some (.user "texterr"))) c6Chunk
      (.oai c6Parse ⟨[], .eofEnd, ⟨false, none⟩⟩)
      ⟨0, ⟨"assistant", "Hi"⟩, ""⟩ [] 1 3 (.user "texterr")
      rfl rfl rfl rfl (by decide) rfl rfl

/-- C8: a raw event whose data is unparsable JSON makes `Recv` of every
backend interpreter return a Server-kind error (never a chunk), and a
stream processor driving a stream whose `Recv` fails invokes
`OnComplete` with exactly that error, returns it, and never invokes
`OnText` for the malformed event. -/
theorem c8_malformed_json_server_error :
    (∀ (po : String → Option OpenAIStreamResponse) (d : String)
       (rest : List String) (k : SSEEnd) (b : HTTPBody),
       d ≠ "" → d ≠ "[DONE]" → po (parseSSEData d) = none →
       openaiRecv po ⟨d :: rest, k, b⟩ =
         (.fail ⟨.server, "解析流式响应失败", 0, "", ""⟩, ⟨rest, k, b⟩)) ∧
    (∀ (pd : String → Option DeepSeekStreamResponse) (d : String)
       (rest : List String) (k : SSEEnd) (b : HTTPBody),
       d ≠ "" → d ≠ "[DONE]" → pd (parseSSEData d) = none →
       deepseekRecv pd ⟨d :: rest, k, b⟩ =
         (.fail ⟨.server, "解析流式响应失败", 0, "", ""⟩, ⟨rest, k, b⟩)) ∧
    (∀ (pa : String → Option AnthropicStreamResponse) (now : Int)
       (d : String) (rest : List String) (k : SSEEnd) (b : HTTPBody),
       d ≠ "" → pa (parseSSEData d) = none →
       anthropicRecv pa now ⟨d :: rest, k, b⟩ =
         (.fail ⟨.server, "解析流式响应失败", 0, "", ""⟩, ⟨rest, k, b⟩)) ∧
    (∀ (pg : String → Option GeminiStreamResponse) (now : Int)
       (d : String) (rest : List String) (k : SSEEnd) (b : HTTPBody)
       (model : String) (cid : Int),
       d ≠ "" → pg (parseSSEData d) = none →
       geminiRecv pg now ⟨d :: rest, k, b, model, cid⟩ =
         (.fail ⟨.server, "解析流式响应失败", 0, "", ""⟩,
          ⟨rest, k, b, model, cid⟩)) ∧
    (∀ (σ : Type) (st st1 : AnyStream) (e : ApiError)
       (opts : StreamOptions σ) (acc : σ) (f : σ → Option GoError → σ),
       st.recv = (.fail e, st1) → opts.onComplete = some f →
       process st opts acc =
         (some (.api e), f acc (some (.api e)),
          [CbEvent.completeCb (some (.api e))] ++
            (if opts.autoClose then [CbEvent.closeCb] else [])) ∧
       textCalls (process st opts acc).2.2 = []) := by
  refine ⟨?_, ?_, ?_, ?_, ?_⟩
  · intro po d rest k b hd hdone hp
    simp [openaiRecv, openaiRecvAux, hd, hdone, hp, newError]
  · intro pd d rest k b hd hdone hp
    simp [deepseekRecv, deepseekRecvAux, hd, hdone, hp, newError]
  · intro pa now d rest k b hd hp
    simp [anthropicRecv, anthropicRecvAux, hd, hp, newError]
  · intro pg now d rest k b model cid hd hp
    simp [geminiRecv, geminiRecvAux, hd, hp, newError]
  · intro σ st st1 e opts acc f hrecv hset
    have hstep := processLoop_failStep opts acc hrecv
    simp only [onCompleteCall, hset] at hstep
    constructor
    · by_cases hac : opts.autoClose <;> simp [process, hac, hstep]
    · by_cases hac : opts.autoClose <;>
        simp [process, hac, hstep, textCalls_append, textCalls]

/-- C8 witness: driving an openai stream whose first event's data
`"oops"` is unparsable — `Recv` yields the Server error, the processor
passes it to `OnComplete` once, returns it, and invokes no `OnText`. -/
theorem c8_malformed_json_server_error_witness :
    (openaiRecv (fun _ => none) ⟨["oops"], .eofEnd, ⟨false, none⟩⟩ =
      (.fail ⟨.server, "解析流式响应失败", 0, "", ""⟩,
       ⟨[], .eofEnd, ⟨false, none⟩⟩)) ∧
    (process (.oai (fun _ => none) ⟨["oops"], .eofEnd, ⟨false, none⟩⟩)
        ⟨none, some fun n (_ : Option GoError) => n + 10,
         some fun n (_ : String) => (n + 2, none), true⟩ (0 : ℕ) =
      (some (.api ⟨.server, "解析流式响应失败", 0, "", ""⟩),
       10,
       [CbEvent.completeCb
          (some (.api ⟨.server, "解析流式响应失败", 0, "", ""⟩)),
        CbEvent.closeCb])) ∧
    (textCalls
        (process (.oai (fun _ => none) ⟨["oops"], .eofEnd, ⟨false, none⟩⟩)
          ⟨none, some fun n (_ : Option GoError) => n + 10,
           some fun n (_ : String) => (n + 2, none), true⟩ (0 : ℕ)).2.2 =
      []) := by
  refine ⟨?_, ?_, ?_⟩
  · exact c8_malformed_json_server_error.1 (fun _ => none) "oops" []
      .eofEnd ⟨false, none⟩ (by decide) (by decide) rfl
  · simpa using (c8_malformed_json_server_error.2.2.2.2 ℕ
      (.oai (fun _ => none) ⟨["oops"], .eofEnd, ⟨false, none⟩⟩)
      (.oai (fun _ => none) ⟨[], .eofEnd, ⟨false, none⟩⟩)
      ⟨.server, "解析流式响应失败", 0, "", ""⟩
      ⟨none, some fun n (_ : Option GoError) => n + 10,
       some fun n (_ : String) => (n + 2, none), true⟩ 0 _ rfl rfl).1
  · exact (c8_malformed_json_server_error.2.2.2.2 ℕ
      (.oai (fun _ => none) ⟨["oops"], .eofEnd, ⟨false, none⟩⟩)
      (.oai (fun _ => none) ⟨[], .eofEnd, ⟨false, none⟩⟩)
      ⟨.server, "解析流式响应失败", 0, "", ""⟩
      ⟨none, some fun n (_ : Option GoError) => n + 10,
       some fun n (_ : String) => (n + 2, none), true⟩ 0 _ rfl rfl).2

/-- C5: for a single-event SSE input `"data: <payload>\n\n"` (with a
non-empty, newline-free payload), the event reader yields exactly one
event whose data is the payload with the `"data: "` prefix removed (the
one space after the colon stripped) — the following read reports end of
stream; and the multi-line input `"data: foo\ndata: bar\n\n"` yields
one event whose data is `"foo\nbar"`, the values joined by a
newline. -/
theorem c5_sse_single_event (payload : String) (h1 : payload ≠ "")
    (h2 : ∀ c ∈ payload.toList, c ≠ '\n') :
    readEvent ⟨("data: " ++ payload ++ "\n\n").toList, []⟩ =
      (some ⟨"", payload, "", 0⟩, ⟨[], []⟩) ∧
    readEvent ⟨[], []⟩ = (none, ⟨[], []⟩) ∧
    readEvent ⟨"data: foo\ndata: bar\n\n".toList, []⟩ =
      (some ⟨"", "foo\nbar", "", 0⟩, ⟨[], []⟩) := by
  refine ⟨?_, readEvent_empty, readEvent_multiline⟩
  have hlist : ("data: " ++ payload ++ "\n\n").toList =
      "data: ".toList ++ payload.toList ++ ['\n', '\n'] := by
    show ("data: " ++ payload ++ "\n\n").data =
      "data: ".data ++ payload.data ++ ['\n', '\n']
    simp [String.data_append]
  have hne : payload.toList ≠ [] := by
    intro hc
    apply h1
    cases payload with
    | mk l => cases hc; rfl
  rw [hlist, readEvent_single_data payload.toList hne h2]
  have hmk : String.mk payload.toList = payload := by
    cases payload with
    | mk l => rfl
  rw [hmk]

/-- C5 witness: the single-event shape at the concrete payload
`"hello"`. -/
theorem c5_sse_single_event_witness :
    readEvent ⟨("data: " ++ "hello" ++ "\n\n").toList, []⟩ =
      (some ⟨"", "hello", "", 0⟩, ⟨[], []⟩) ∧
    readEvent ⟨[], []⟩ = (none, ⟨[], []⟩) ∧
    readEvent ⟨"data: foo\ndata: bar\n\n".toList, []⟩ =
      (some ⟨"", "foo\nbar", "", 0⟩, ⟨[], []⟩) :=
  c5_sse_single_event "hello" (by decide) (by decide)
